import Mathlib

/-!
# ldaplookup: the integrity gate of `main.go`

A shallow embedding of the gating code of `src/main.go` (`xorDecode`, `selfDestruct`,
`getHostnameFQDN`, `checkHostnameLock`, `checkPathLock`, `checkDebugger` and the gate at the
top of `main`), followed by the theorems about it.

Go strings are byte sequences: a string is a `List Nat` whose elements are meant to be bytes
(`< 256`).  A run-time panic of the Go code is the value `none` of an `Option`.
-/

namespace Ldaplookup

/-- A Go string: its sequence of bytes. -/
abbrev Str := List Nat

/-- The bytes of an ASCII literal. -/
def ascii (s : String) : Str := s.toList.map Char.toNat

/-- Every element is a byte. -/
def IsBytes (s : Str) : Prop := ∀ b ∈ s, b < 256

instance (s : Str) : Decidable (IsBytes s) := by
  unfold IsBytes; infer_instance

/-! ## The codec (`xorDecode`, main.go lines 32-44) -/

/-- Value of one hexadecimal digit, as `fmt` accepts them for the verb `x`
(the digit set `0123456789aAbBcCdDeEfF`); `none` for any other byte. -/
def hexDigitVal (c : Nat) : Option Nat :=
  if 48 ≤ c ∧ c ≤ 57 then some (c - 48)
  else if 97 ≤ c ∧ c ≤ 102 then some (c - 87)
  else if 65 ≤ c ∧ c ≤ 70 then some (c - 55)
  else none

/-- The one-byte spaces that `fmt` skips before a number when scanning with `Sscanf`
(tab, vertical tab, form feed, carriage return, blank); a line feed is an error there. -/
def isScanSpace (c : Nat) : Bool :=
  c = 9 ∨ c = 11 ∨ c = 12 ∨ c = 13 ∨ c = 32

/-- What `var b byte; fmt.Sscanf(s, "%02x", &b)` leaves in `b` for the two-byte string
`s = [c0, c1]` (line 40; the error of `Sscanf` is dropped by the caller and `b` starts at 0):
leading space is skipped, then at most two hexadecimal digits are read; with no digit the scan
fails and `b` stays 0. -/
def sscanfHexByte (c0 c1 : Nat) : Nat :=
  match hexDigitVal c0 with
  | some d0 =>
    match hexDigitVal c1 with
    | some d1 => 16 * d0 + d1
    | none => d0
  | none => if isScanSpace c0 then (hexDigitVal c1).getD 0 else 0

/-- The loop of `xorDecode` (lines 38-42), at output position `j = i/2` with the rest of
`hexStr` from offset `i` on.  Each round slices `hexStr[i:i+2]`, which panics when a single
byte is left; `key[i/2%len(key)]` is a checked index. -/
def xorLoop (key : Str) : Nat → Str → Option Str
  | _, [] => some []
  | _, [_] => none
  | j, c0 :: c1 :: rest =>
    match key[j % key.length]? with
    | none => none
    | some kb =>
      match xorLoop key (j + 1) rest with
      | none => none
      | some out => some ((sscanfHexByte c0 c1 ^^^ kb) :: out)

/-- The function `xorDecode(hexStr, key)` of main.go; `none` is a run-time panic. -/
def xorDecode (hexStr key : Str) : Option Str :=
  if hexStr = [] ∨ key = [] then some []
  else xorLoop key 0 hexStr

/-- Lower-case hexadecimal digit (as a byte) of a value below 16. -/
def hexDigitLower (d : Nat) : Nat := if d < 10 then 48 + d else 87 + d

/-- Upper-case hexadecimal digit (as a byte) of a value below 16. -/
def hexDigitUpper (d : Nat) : Nat := if d < 10 then 48 + d else 55 + d

/-- The encoder as the specification words it, from output position `j` on: two hexadecimal
digits per byte, rendering `p[i] XOR k[i mod len(k)]`; `digit` is the rendering of one
digit. -/
def specEncodeFrom (digit : Nat → Nat) (k : Str) : Nat → Str → Str
  | _, [] => []
  | j, b :: rest =>
    digit ((b ^^^ k.getD (j % k.length) 0) / 16) ::
      digit ((b ^^^ k.getD (j % k.length) 0) % 16) :: specEncodeFrom digit k (j + 1) rest

/-- The encoder of the specification: `encode(p, k)`. -/
def specEncode (digit : Nat → Nat) (p k : Str) : Str := specEncodeFrom digit k 0 p

/-- The value of the hexadecimal pair at position `i` of `hexStr`, read as a number in
base 16; `none` when one of the two characters is missing or is no hexadecimal digit. -/
def hexPairVal (hexStr : Str) (i : Nat) : Option Nat :=
  match hexStr[2 * i]?, hexStr[2 * i + 1]? with
  | some c0, some c1 =>
    match hexDigitVal c0, hexDigitVal c1 with
    | some d0, some d1 => some (16 * d0 + d1)
    | _, _ => none
  | _, _ => none

/-! ## The Go library functions the gate calls

Models of `strings.HasPrefix`, `strings.TrimSuffix`, `strings.Split`, `strings.TrimSpace`,
`strings.Fields`, `filepath.Clean`, `filepath.Dir` and `filepath.Join` (Unix), on byte
strings.  White space is Unicode white space of the UTF-8 decoded string, as in Go. -/

/-- Go `strings.HasPrefix(s, pre)`. -/
def HasPrefix (s pre : Str) : Bool := pre.isPrefixOf s

/-- Go `strings.HasSuffix(s, suf)`. -/
def HasSuffix (s suf : Str) : Bool := suf.isSuffixOf s

/-- Go `strings.TrimSuffix(s, suf)`: `s` without the trailing `suf`, once, when it ends in
`suf`; otherwise `s`. -/
def TrimSuffix (s suf : Str) : Str :=
  if HasSuffix s suf then s.take (s.length - suf.length) else s

/-- Go `strings.Split(s, sep)` for a one-byte separator: the pieces between the separators,
always at least one piece. -/
def Split (sep : Nat) : Str → List Str
  | [] => [[]]
  | c :: cs =>
    if c = sep then [] :: Split sep cs
    else
      match Split sep cs with
      | [] => [[c]]
      | piece :: pieces => (c :: piece) :: pieces

/-- Go `utf8.RuneError`. -/
def RuneError : Nat := 0xFFFD

/-- Go `utf8.DecodeRuneInString`: the first rune of `s` and its width in bytes; an invalid
or short encoding is `(RuneError, 1)`, the empty string `(RuneError, 0)`. -/
def decodeRune : Str → Nat × Nat
  | [] => (RuneError, 0)
  | s0 :: rest =>
    if s0 < 0x80 then (s0, 1)
    else if s0 < 0xC2 ∨ 0xF4 < s0 then (RuneError, 1)
    else
      let sz := if s0 < 0xE0 then 2 else if s0 < 0xF0 then 3 else 4
      let lo := if s0 = 0xE0 then 0xA0 else if s0 = 0xF0 then 0x90 else 0x80
      let hi := if s0 = 0xED then 0x9F else if s0 = 0xF4 then 0x8F else 0xBF
      if rest.length + 1 < sz then (RuneError, 1)
      else
        let s1 := rest.getD 0 0
        if s1 < lo ∨ hi < s1 then (RuneError, 1)
        else if sz ≤ 2 then (((s0 &&& 0x1F) <<< 6) ||| (s1 &&& 0x3F), 2)
        else
          let s2 := rest.getD 1 0
          if s2 < 0x80 ∨ 0xBF < s2 then (RuneError, 1)
          else if sz ≤ 3 then
            (((s0 &&& 0x0F) <<< 12) ||| ((s1 &&& 0x3F) <<< 6) ||| (s2 &&& 0x3F), 3)
          else
            let s3 := rest.getD 2 0
            if s3 < 0x80 ∨ 0xBF < s3 then (RuneError, 1)
            else
              (((s0 &&& 0x07) <<< 18) ||| ((s1 &&& 0x3F) <<< 12) ||| ((s2 &&& 0x3F) <<< 6)
                ||| (s3 &&& 0x3F), 4)

/-- Go `utf8.RuneStart`: the byte is not a continuation byte. -/
def runeStart (b : Nat) : Bool := b &&& 0xC0 != 0x80

/-- The backward scan of Go `utf8.DecodeLastRuneInString`: from `start` down to `lim`, stop
at the first byte that can start a rune. -/
def lastRuneScan (s : Str) (lim : Int) : Nat → Int → Int
  | 0, start => start
  | fuel + 1, start =>
    if lim ≤ start then
      if runeStart (s.getD start.toNat 0) then start
      else lastRuneScan s lim fuel (start - 1)
    else start

/-- Go `utf8.DecodeLastRuneInString`: the last rune of `s` and its width. -/
def decodeLastRune (s : Str) : Nat × Nat :=
  if s.length = 0 then (RuneError, 0)
  else
    let r := s.getD (s.length - 1) 0
    if r < 0x80 then (r, 1)
    else
      let lim : Int := if (s.length : Int) - 4 < 0 then 0 else (s.length : Int) - 4
      let scanned := lastRuneScan s lim 5 ((s.length : Int) - 2)
      let start : Nat := if scanned < 0 then 0 else scanned.toNat
      let d := decodeRune (s.drop start)
      if start + d.2 ≠ s.length then (RuneError, 1) else d

/-- Go `unicode.IsSpace`. -/
def isSpace (r : Nat) : Bool :=
  if r ≤ 0xFF then
    r = 9 ∨ r = 10 ∨ r = 11 ∨ r = 12 ∨ r = 13 ∨ r = 32 ∨ r = 0x85 ∨ r = 0xA0
  else
    r = 0x1680 ∨ (0x2000 ≤ r ∧ r ≤ 0x200A) ∨ r = 0x2028 ∨ r = 0x2029 ∨ r = 0x202F
      ∨ r = 0x205F ∨ r = 0x3000

/-- Go `strings.TrimLeftFunc(s, unicode.IsSpace)`; each round removes one leading rune, so
`s.length` rounds are enough. -/
def trimLeftSpace : Nat → Str → Str
  | 0, s => s
  | fuel + 1, s =>
    if s = [] then []
    else if isSpace (decodeRune s).1 then trimLeftSpace fuel (s.drop (decodeRune s).2)
    else s

/-- Go `strings.TrimRightFunc(s, unicode.IsSpace)`; each round removes one trailing rune. -/
def trimRightSpace : Nat → Str → Str
  | 0, s => s
  | fuel + 1, s =>
    if s = [] then []
    else if isSpace (decodeLastRune s).1 then
      trimRightSpace fuel (s.take (s.length - (decodeLastRune s).2))
    else s

/-- Go `strings.TrimSpace(s)`: `s` without leading and trailing white space. -/
def TrimSpace (s : Str) : Str :=
  trimRightSpace s.length (trimLeftSpace s.length s)

/-- The loop of Go `strings.FieldsFunc(s, unicode.IsSpace)`: `cur` is the field being read. -/
def fieldsLoop : Nat → Str → Str → List Str
  | 0, _, cur => if cur = [] then [] else [cur]
  | fuel + 1, s, cur =>
    if s = [] then (if cur = [] then [] else [cur])
    else if isSpace (decodeRune s).1 then
      (if cur = [] then [] else [cur]) ++ fieldsLoop fuel (s.drop (decodeRune s).2) []
    else fieldsLoop fuel (s.drop (decodeRune s).2) (cur ++ s.take (decodeRune s).2)

/-- Go `strings.Fields(s)`: the maximal runs of non-space runes of `s`. -/
def Fields (s : Str) : List Str := fieldsLoop s.length s []

/-- The path separator of Unix, `/`. -/
def Separator : Nat := 47

/-- Go `os.IsPathSeparator` (Unix). -/
def isPathSeparator (c : Nat) : Bool := c = Separator

/-- The backtracking of `filepath.Clean` at a `..` element: lower the write index `w`
while it is above `dotdot` and the byte at `w` is no separator. -/
def cleanBacktrack (out : Str) (dotdot : Nat) : Nat → Nat → Nat
  | 0, w => w
  | fuel + 1, w =>
    if dotdot < w ∧ ¬ isPathSeparator (out.getD w 0) then cleanBacktrack out dotdot fuel (w - 1)
    else w

/-- The main loop of Go `filepath.Clean` (Unix): `r` is the read index into `path`, `out`
the bytes written so far, `dotdot` the index where `..` must stop.  Each round advances `r`,
so `path.length` rounds are enough. -/
def cleanLoop (path : Str) (rooted : Bool) : Nat → Nat → Str → Nat → Str
  | 0, _, out, _ => out
  | fuel + 1, r, out, dotdot =>
    if r < path.length then
      if isPathSeparator (path.getD r 0) then cleanLoop path rooted fuel (r + 1) out dotdot
      else if path.getD r 0 = 46 ∧
          (r + 1 = path.length ∨ isPathSeparator (path.getD (r + 1) 0)) then
        cleanLoop path rooted fuel (r + 1) out dotdot
      else if path.getD r 0 = 46 ∧ path.getD (r + 1) 0 = 46 ∧
          (r + 2 = path.length ∨ isPathSeparator (path.getD (r + 2) 0)) then
        if dotdot < out.length then
          cleanLoop path rooted fuel (r + 2)
            (out.take (cleanBacktrack out dotdot out.length (out.length - 1))) dotdot
        else if ¬ rooted then
          cleanLoop path rooted fuel (r + 2)
            ((if 0 < out.length then out ++ [Separator] else out) ++ [46, 46])
            ((if 0 < out.length then out ++ [Separator] else out) ++ [46, 46]).length
        else cleanLoop path rooted fuel (r + 2) out dotdot
      else
        cleanLoop path rooted fuel
          (r + ((path.drop r).takeWhile (fun c => ! isPathSeparator c)).length)
          ((if (rooted ∧ out.length ≠ 1) ∨ (¬ rooted ∧ out.length ≠ 0)
              then out ++ [Separator] else out)
            ++ (path.drop r).takeWhile (fun c => ! isPathSeparator c))
          dotdot
    else out

/-- Go `filepath.Clean(path)` (Unix). -/
def Clean (path : Str) : Str :=
  if path = [] then [46]
  else
    let rooted := isPathSeparator (path.getD 0 0)
    let out := cleanLoop path rooted path.length (if rooted then 1 else 0)
      (if rooted then [Separator] else []) (if rooted then 1 else 0)
    if out = [] then [46] else out

/-- Go `filepath.Dir(path)` (Unix): all but the last element of `path`, cleaned. -/
def Dir (path : Str) : Str :=
  Clean (path.reverse.dropWhile (fun c => ! isPathSeparator c)).reverse

/-- Go `filepath.Join(dir, name)` for two elements. -/
def Join (dir name : Str) : Str :=
  if dir ≠ [] then Clean (dir ++ [Separator] ++ name)
  else if name ≠ [] then Clean name
  else []

/-! ## Build-time configuration and the facts of one run -/

/-- The build-time configuration (main.go lines 19-30, set via `-ldflags`). -/
structure Config where
  ldapServer : Str
  bindDN : Str
  userSearchBase : Str
  groupSearchBase : Str
  bindPWEnc : Str
  obfKey : Str
  dnsServer : Str
  allowedHostsEnc : Str
  allowedPathEnc : Str
deriving DecidableEq

/-- What the operating system and the network answer during one run. -/
structure Env where
  /-- The lines `bufio.Scanner` yields for `/proc/self/status`; `none` when `os.Open`
  fails. -/
  procStatus : Option (List Str)
  /-- Standard output of `hostname -f`; `none` when the command fails. -/
  hostnameF : Option Str
  /-- Standard output of `hostnamectl --transient`; `none` when the command fails. -/
  hostnamectlTransient : Option Str
  /-- The result of `os.Hostname()` (its error is dropped by the caller). -/
  osHostname : Str
  /-- The result of `resolver.LookupHost(ctx, host)` for a resolver that dials the given
  address: the addresses, or `none` for an error (a timeout included). -/
  lookupHost : Str → Str → Option (List Str)
  /-- The result of `os.Executable()`; `none` for an error. -/
  executable : Option Str

/-- How a run of the gate ends. -/
inductive Termination where
  /-- The process ended through `os.Exit(code)`. -/
  | exit (code : Nat)
  /-- The process ended in a Go run-time panic. -/
  | panicked
  /-- Control reached line 195, the code after the gate. -/
  | passedGate
deriving DecidableEq

/-- The observable outcome of a run of the gate: the paths handed to `os.Remove`, in order,
and how the run ended. -/
structure Result where
  removes : List Str
  term : Termination
deriving DecidableEq

/-! ## The gate (`main.go` lines 60-193) -/

/-- The function `selfDestruct()` (lines 60-71): up to four `os.Remove` attempts, whose errors
are dropped, then `os.Exit(1)`. -/
def selfDestruct (env : Env) : Result :=
  Result.mk
    ((match env.executable with
      | some execPath =>
        [Join (Dir execPath) (ascii "ldaplookup"), Join (Dir execPath) (ascii "ldaplookupg")]
      | none => [])
      ++ [ascii "ldaplookup", ascii "ldaplookupg"])
    (Termination.exit 1)

/-- The statement `os.Exit(1)` of line 186: no file is touched. -/
def cleanExit : Result := Result.mk [] (Termination.exit 1)

/-- A run that ended in a panic before any file was touched. -/
def panicExit : Result := Result.mk [] Termination.panicked

/-- The function `getHostnameFQDN()` (lines 73-95). -/
def getHostnameFQDN (env : Env) : Str :=
  match
    (match env.hostnameF with
     | some out =>
       if TrimSpace out ≠ [] ∧ ¬ HasPrefix (TrimSpace out) (ascii "localhost")
       then some (TrimSpace out) else none
     | none => none) with
  | some fqdn => fqdn
  | none =>
    match
      (match env.hostnamectlTransient with
       | some out => if TrimSpace out ≠ [] then some (TrimSpace out) else none
       | none => none) with
    | some transient => transient
    | none => env.osHostname

/-- The search loop of `checkHostnameLock` (lines 107-113): some entry, trimmed, is the
current host. -/
def hostFound (currentHost : Str) : List Str → Bool
  | [] => false
  | h :: rest => if TrimSpace h = currentHost then true else hostFound currentHost rest

/-- The function `checkHostnameLock()` (lines 97-132); `none` when `xorDecode` panics. -/
def checkHostnameLock (cfg : Config) (env : Env) : Option Bool :=
  match xorDecode cfg.allowedHostsEnc cfg.obfKey with
  | none => none
  | some allowedHosts =>
    if cfg.dnsServer = [] ∨ allowedHosts = [] then some true
    else if ¬ hostFound (getHostnameFQDN env) (Split 44 allowedHosts) then some false
    else
      match env.lookupHost (cfg.dnsServer ++ ascii ":53") (getHostnameFQDN env) with
      | none => some false
      | some ips => some (decide (0 < ips.length))

/-- The function `checkPathLock()` (lines 134-153); `none` when `xorDecode` panics. -/
def checkPathLock (cfg : Config) (env : Env) : Option Bool :=
  match xorDecode cfg.allowedPathEnc cfg.obfKey with
  | none => none
  | some allowedPath =>
    if allowedPath = [] then some true
    else
      match env.executable with
      | none => some false
      | some execPath =>
        some (decide
          (TrimSuffix (Dir execPath) (ascii "/") = TrimSuffix allowedPath (ascii "/")))

/-- The scan of `checkDebugger` over the lines of the status file (lines 164-174): the first
line that starts with `TracerPid:` decides, the loop breaks there. -/
def checkDebuggerLines : List Str → Bool
  | [] => false
  | line :: rest =>
    if HasPrefix line (ascii "TracerPid:") then
      decide (2 ≤ (Fields line).length ∧ (Fields line).getD 1 [] ≠ ascii "0")
    else checkDebuggerLines rest

/-- The function `checkDebugger()` (lines 155-175). -/
def checkDebugger (env : Env) : Bool :=
  match env.procStatus with
  | none => false
  | some lines => checkDebuggerLines lines

/-- Go `a() && b()` on calls that may panic: `b` is called only when `a` returned true. -/
def goAnd (a b : Option Bool) : Option Bool :=
  match a with
  | none => none
  | some false => some false
  | some true => b

/-- The local `hostLockConfigured` of `main` (line 179). -/
def hostLockConfigured (cfg : Config) : Bool :=
  decide (cfg.dnsServer ≠ []) && decide (cfg.allowedHostsEnc ≠ [])

/-- The local `pathLockConfigured` of `main` (line 180). -/
def pathLockConfigured (cfg : Config) : Bool := decide (cfg.allowedPathEnc ≠ [])

/-- The local `anyLockConfigured` of `main` (line 182). -/
def anyLockConfigured (cfg : Config) : Bool := hostLockConfigured cfg || pathLockConfigured cfg

/-- The gate of `main()` (lines 177-193).  `Termination.passedGate` stands for control
reaching line 195, where the bind credential is decoded and the lookup follows. -/
def main (cfg : Config) (env : Env) : Result :=
  if checkDebugger env then
    match goAnd (checkHostnameLock cfg env) (checkPathLock cfg env) with
    | none => panicExit
    | some allLocksPassed =>
      if anyLockConfigured cfg && allLocksPassed then cleanExit else selfDestruct env
  else
    match checkHostnameLock cfg env with
    | none => panicExit
    | some false => selfDestruct env
    | some true =>
      match checkPathLock cfg env with
      | none => panicExit
      | some false => selfDestruct env
      | some true => Result.mk [] Termination.passedGate

/-! ## Sample configurations and runs -/

/-- A configuration with every constant empty. -/
def emptyConfig : Config := Config.mk [] [] [] [] [] [] [] [] []

/-- A path-locked build: key `k`, allowed path `/opt` (encoded `44041b1f`). -/
def pathLockedConfig : Config :=
  Config.mk [] [] [] [] [] (ascii "k") [] [] (ascii "44041b1f")

/-- A host-locked build: key `k`, resolver `10.0.0.1`, allowed hosts `a.io, b.io`
(encoded `0a450204474b094502044b`, with a blank after the comma and one at the end). -/
def hostLockedConfig : Config :=
  Config.mk [] [] [] [] [] (ascii "k") (ascii "10.0.0.1") (ascii "0a450204474b094502044b") []

/-- A build with an empty key and a non-empty encoded path. -/
def keylessConfig : Config :=
  Config.mk [] [] [] [] [] [] [] [] (ascii "44041b1f")

/-- A run on host `b.io` from `/opt/ldaplookup`, not traced; the resolver at `10.0.0.1:53`
knows `b.io`. -/
def sampleEnv : Env :=
  Env.mk (some [ascii "Name:\tldaplookup", ascii "TracerPid:\t0", ascii "Uid:\t0"])
    (some (ascii "b.io\n")) none (ascii "b")
    (fun addr host =>
      if addr = ascii "10.0.0.1:53" ∧ host = ascii "b.io" then some [ascii "10.1.2.3"] else none)
    (some (ascii "/opt/ldaplookup"))

/-- The same run under a tracer with process id 4242. -/
def tracedEnv : Env :=
  Env.mk (some [ascii "Name:\tldaplookup", ascii "TracerPid:\t4242", ascii "Uid:\t0"])
    sampleEnv.hostnameF sampleEnv.hostnamectlTransient sampleEnv.osHostname
    sampleEnv.lookupHost sampleEnv.executable

/-- The run from `/tmp/ldaplookup` instead, not traced. -/
def movedEnv : Env :=
  Env.mk sampleEnv.procStatus sampleEnv.hostnameF sampleEnv.hostnamectlTransient
    sampleEnv.osHostname sampleEnv.lookupHost (some (ascii "/tmp/ldaplookup"))

/-- The normalisation of the path lock as the specification words it: remove exactly one
trailing `/` when there is one, change nothing else. -/
def specNormalize (p : Str) : Str :=
  if p.getLast? = some 47 then p.dropLast else p

/-- The tracer field as the specification words it: the content has a `TracerPid:` field (a
line that starts with it) whose value (the second white-space separated field of the line) is
present and is not `0`. -/
def specTracerField (lines : List Str) : Prop :=
  ∃ line ∈ lines, HasPrefix line (ascii "TracerPid:") = true ∧
    2 ≤ (Fields line).length ∧ (Fields line).getD 1 [] ≠ ascii "0"

/-- A build with key `k` and no lock constant. -/
def keyedEmptyConfig : Config := Config.mk [] [] [] [] [] (ascii "k") [] [] []

/-- A path-locked build whose allowed path is `/opt/` (encoded `44041b1f44`). -/
def slashConfig : Config :=
  Config.mk [] [] [] [] [] (ascii "k") [] [] (ascii "44041b1f44")

/-- A path-locked build whose allowed path is `/opt//` (encoded `44041b1f4444`). -/
def doubleSlashConfig : Config :=
  Config.mk [] [] [] [] [] (ascii "k") [] [] (ascii "44041b1f4444")

/-- A build with key `k`, no resolver, and the one-character allow-list constant `a`, which
is no sequence of hexadecimal pairs. -/
def malformedHostsConfig : Config :=
  Config.mk [] [] [] [] [] (ascii "k") [] (ascii "a") []

/-- A build with key `k` and the one-character allowed-path constant `a`. -/
def malformedPathConfig : Config :=
  Config.mk [] [] [] [] [] (ascii "k") [] [] (ascii "a")

/-- The sample run when `os.Executable()` fails. -/
def noExecEnv : Env :=
  Env.mk sampleEnv.procStatus sampleEnv.hostnameF sampleEnv.hostnamectlTransient
    sampleEnv.osHostname sampleEnv.lookupHost none

/-- A run whose status file has two `TracerPid:` lines, the first with value 0. -/
def twoFieldsEnv : Env :=
  Env.mk (some [ascii "TracerPid:\t0", ascii "TracerPid:\t4242"])
    sampleEnv.hostnameF sampleEnv.hostnamectlTransient sampleEnv.osHostname
    sampleEnv.lookupHost sampleEnv.executable

/-! ## Sample evaluations of the model -/

theorem sample_decode_path :
    xorDecode pathLockedConfig.allowedPathEnc pathLockedConfig.obfKey
      = some (ascii "/opt") := by
  decide

theorem sample_decode_hosts :
    xorDecode hostLockedConfig.allowedHostsEnc hostLockedConfig.obfKey
      = some (ascii "a.io, b.io ") := by
  decide

theorem sample_getHostnameFQDN : getHostnameFQDN sampleEnv = ascii "b.io" := by decide

theorem sample_checkHostnameLock :
    checkHostnameLock hostLockedConfig sampleEnv
      = some true := by
  decide

theorem sample_checkPathLock : checkPathLock pathLockedConfig sampleEnv = some true := by decide

theorem sample_checkPathLock_moved :
    checkPathLock pathLockedConfig movedEnv
      = some false := by
  decide

theorem sample_main_pass :
    main pathLockedConfig sampleEnv
      = Result.mk [] Termination.passedGate := by
  decide

theorem sample_main_traced_clean : main pathLockedConfig tracedEnv = cleanExit := by decide

theorem sample_main_traced_destruct :
    main emptyConfig tracedEnv
      = selfDestruct tracedEnv := by
  decide

theorem sample_main_keyless : main keylessConfig tracedEnv = cleanExit := by decide

theorem sample_main_moved : main pathLockedConfig movedEnv = selfDestruct movedEnv := by decide

theorem sample_selfDestruct_removes :
    (selfDestruct sampleEnv).removes
      = [ascii "/opt/ldaplookup", ascii "/opt/ldaplookupg", ascii "ldaplookup",
          ascii "ldaplookupg"] := by
  decide

theorem sample_Dir_nested : Dir (ascii "/opt/bin/ldaplookup") = ascii "/opt/bin" := by decide

theorem sample_Dir_root : Dir (ascii "/ldaplookup") = ascii "/" := by decide

theorem sample_Dir_relative : Dir (ascii "ldaplookup") = ascii "." := by decide

theorem sample_Clean_mixed : Clean (ascii "/a/../b/./c//d/..") = ascii "/b/c" := by decide

theorem sample_Clean_dotdot : Clean (ascii "../../a/..") = ascii "../.." := by decide

theorem sample_Clean_up : Clean (ascii "a/b/../../..") = ascii ".." := by decide

theorem sample_Join_nested :
    Join (ascii "/opt/bin") (ascii "ldaplookup")
      = ascii "/opt/bin/ldaplookup" := by
  decide

theorem sample_Join_root : Join (ascii "/") (ascii "ldaplookup") = ascii "/ldaplookup" := by decide

theorem sample_TrimSpace_ascii :
    TrimSpace (ascii "  host.example.com \n")
      = ascii "host.example.com" := by
  decide

theorem sample_TrimSpace_unicode :
    TrimSpace ([0xC2, 0xA0] ++ ascii "a b" ++ [0xE2, 0x80, 0x83, 32])
      = ascii "a b" := by
  decide

theorem sample_TrimSpace_invalid : TrimSpace [0xC2, 0xC2, 0x85] = [0xC2] := by decide

theorem sample_Fields_status :
    Fields (ascii "TracerPid:\t0")
      = [ascii "TracerPid:", ascii "0"] := by
  decide

theorem sample_Fields_blanks :
    Fields (ascii "  a  bb c ")
      = [ascii "a", ascii "bb", ascii "c"] := by
  decide

theorem sample_Fields_unicode :
    Fields (ascii "a" ++ [0xE3, 0x80, 0x80] ++ ascii "b")
      = [ascii "a", ascii "b"] := by
  decide

theorem sample_Split_commas :
    Split 44 (ascii "a,b,,c")
      = [ascii "a", ascii "b", [], ascii "c"] := by
  decide

theorem sample_Split_trailing : Split 44 (ascii "a,") = [ascii "a", []] := by decide

theorem sample_TrimSuffix_double :
    TrimSuffix (ascii "/opt//") (ascii "/")
      = ascii "/opt/" := by
  decide

theorem sample_TrimSuffix_root : TrimSuffix (ascii "/") (ascii "/") = [] := by decide

theorem sample_xorDecode_pair :
    xorDecode (ascii "2f6f") (ascii "k")
      = some [0x2f ^^^ 107, 0x6f ^^^ 107] := by
  decide

theorem sample_xorDecode_odd : xorDecode (ascii "2f6") (ascii "k") = none := by decide

theorem sample_specEncode :
    specEncode hexDigitLower (ascii "/opt") (ascii "key")
      = ascii "440a091f" := by
  decide

/-! ## The round bounds of the library models are enough

Each looping model takes a bound on its rounds; with a bound of at least the length that is
left the result does not depend on the bound. -/

theorem ite_width_pos {c : Prop} [Decidable c] {a b : Nat × Nat} (ha : 1 ≤ a.2)
    (hb : 1 ≤ b.2) : 1 ≤ (if c then a else b).2 := by
  split_ifs <;> assumption

theorem decodeRune_width_pos (c : Nat) (s : Str) : 1 ≤ (decodeRune (c :: s)).2 := by
  rw [decodeRune]
  dsimp only
  repeat' apply ite_width_pos
  all_goals exact Nat.succ_le_succ (Nat.zero_le _)

theorem trimLeftSpace_bound (f1 : Nat) :
    ∀ (f2 : Nat) (s : Str), s.length ≤ f1 → s.length ≤ f2 →
      trimLeftSpace f1 s = trimLeftSpace f2 s := by
  induction f1 with
  | zero =>
    intro f2 s h1 _
    have hs : s = [] := List.length_eq_zero.mp (by omega)
    subst hs
    cases f2 <;> simp [trimLeftSpace]
  | succ n ih =>
    intro f2 s h1 h2
    cases f2 with
    | zero =>
      have hs : s = [] := List.length_eq_zero.mp (by omega)
      subst hs; simp [trimLeftSpace]
    | succ m =>
      cases s with
      | nil => simp [trimLeftSpace]
      | cons c cs =>
        have hw := decodeRune_width_pos c cs
        simp only [trimLeftSpace, reduceCtorEq, if_false]
        by_cases hsp : isSpace (decodeRune (c :: cs)).1 = true
        · rw [if_pos hsp, if_pos hsp]
          apply ih
          · simp only [List.length_drop, List.length_cons] at h1 ⊢; omega
          · simp only [List.length_drop, List.length_cons] at h2 ⊢; omega
        · rw [if_neg hsp, if_neg hsp]

theorem fieldsLoop_bound (f1 : Nat) :
    ∀ (f2 : Nat) (s cur : Str), s.length ≤ f1 → s.length ≤ f2 →
      fieldsLoop f1 s cur = fieldsLoop f2 s cur := by
  induction f1 with
  | zero =>
    intro f2 s cur h1 _
    have hs : s = [] := List.length_eq_zero.mp (by omega)
    subst hs
    cases f2 <;> simp [fieldsLoop]
  | succ n ih =>
    intro f2 s cur h1 h2
    cases f2 with
    | zero =>
      have hs : s = [] := List.length_eq_zero.mp (by omega)
      subst hs; simp [fieldsLoop]
    | succ m =>
      cases s with
      | nil => simp [fieldsLoop]
      | cons c cs =>
        have hw := decodeRune_width_pos c cs
        have hd1 : ((c :: cs).drop (decodeRune (c :: cs)).2).length ≤ n := by
          simp only [List.length_drop, List.length_cons] at h1 ⊢; omega
        have hd2 : ((c :: cs).drop (decodeRune (c :: cs)).2).length ≤ m := by
          simp only [List.length_drop, List.length_cons] at h2 ⊢; omega
        simp only [fieldsLoop]
        rw [ih m _ [] hd1 hd2, ih m _ (cur ++ (c :: cs).take (decodeRune (c :: cs)).2) hd1 hd2]

theorem lastRuneScan_le (s : Str) (lim : Int) (fuel : Nat) :
    ∀ start : Int, lastRuneScan s lim fuel start ≤ start := by
  induction fuel with
  | zero => intro start; simp [lastRuneScan]
  | succ n ih =>
    intro start
    simp only [lastRuneScan]
    split_ifs
    · exact le_refl _
    · exact le_trans (ih (start - 1)) (by omega)
    · exact le_refl _

theorem decodeLastRune_width_pos (s : Str) (hs : s ≠ []) : 1 ≤ (decodeLastRune s).2 := by
  have hlen : 0 < s.length := List.length_pos.mpr hs
  have hscan := fun lim => lastRuneScan_le s lim 5 ((s.length : Int) - 2)
  have h0 := hscan 0
  have h4 := hscan ((s.length : Int) - 4)
  unfold decodeLastRune
  dsimp only
  split_ifs <;> first
    | exact Nat.succ_le_succ (Nat.zero_le _)
    | omega

theorem trimRightSpace_bound (f1 : Nat) :
    ∀ (f2 : Nat) (s : Str), s.length ≤ f1 → s.length ≤ f2 →
      trimRightSpace f1 s = trimRightSpace f2 s := by
  induction f1 with
  | zero =>
    intro f2 s h1 _
    have hs : s = [] := List.length_eq_zero.mp (by omega)
    subst hs
    cases f2 <;> simp [trimRightSpace]
  | succ n ih =>
    intro f2 s h1 h2
    cases f2 with
    | zero =>
      have hs : s = [] := List.length_eq_zero.mp (by omega)
      subst hs; simp [trimRightSpace]
    | succ m =>
      by_cases hs : s = []
      · subst hs; simp [trimRightSpace]
      · have hw := decodeLastRune_width_pos s hs
        have hlen : 0 < s.length := List.length_pos.mpr hs
        simp only [trimRightSpace, if_neg hs]
        split_ifs
        · apply ih
          · simp only [List.length_take]; omega
          · simp only [List.length_take]; omega
        · rfl

/-- The result of `TrimSpace` does not depend on the round bounds, as long as each is at least
the length of the string. -/
theorem TrimSpace_bound (s : Str) (f1 f2 : Nat) (h1 : s.length ≤ f1) (h2 : s.length ≤ f2) :
    trimRightSpace f2 (trimLeftSpace f1 s) = TrimSpace s := by
  unfold TrimSpace
  rw [trimLeftSpace_bound f1 s.length s h1 (le_refl _)]
  have hle : ∀ (f : Nat) (t : Str), (trimLeftSpace f t).length ≤ t.length := by
    intro f
    induction f with
    | zero => intro t; simp [trimLeftSpace]
    | succ n ih =>
      intro t
      simp only [trimLeftSpace]
      split_ifs
      · simp
      · exact le_trans (ih _) (by simp)
      · exact le_refl _
  exact trimRightSpace_bound f2 s.length _ (le_trans (hle _ _) h2) (hle _ _)

/-- The result of `Fields` does not depend on the round bound. -/
theorem Fields_bound (s : Str) (f : Nat) (h : s.length ≤ f) : fieldsLoop f s [] = Fields s :=
  fieldsLoop_bound f s.length s [] h (le_refl _)

theorem cleanBacktrack_bound (out : Str) (dotdot : Nat) (f1 : Nat) :
    ∀ (f2 w : Nat), w < f1 → w < f2 →
      cleanBacktrack out dotdot f1 w = cleanBacktrack out dotdot f2 w := by
  induction f1 with
  | zero => intro f2 w h1 _; omega
  | succ n ih =>
    intro f2 w h1 h2
    cases f2 with
    | zero => omega
    | succ m =>
      simp only [cleanBacktrack]
      by_cases hc : dotdot < w ∧ ¬ isPathSeparator (out.getD w 0) = true
      · rw [if_pos hc, if_pos hc]
        exact ih m (w - 1) (by omega) (by omega)
      · rw [if_neg hc, if_neg hc]

theorem element_length_pos (path : Str) (r : Nat) (hr : r < path.length)
    (hsep : ¬ isPathSeparator (path.getD r 0) = true) :
    1 ≤ ((path.drop r).takeWhile (fun c => ! isPathSeparator c)).length := by
  have hd : path.drop r = path.getD r 0 :: path.drop (r + 1) := by
    rw [List.getD_eq_getElem _ _ hr]
    exact List.drop_eq_getElem_cons hr
  have hb : (! isPathSeparator (path.getD r 0)) = true := by simpa using hsep
  rw [hd]
  generalize path.getD r 0 = x at hb
  simp [List.takeWhile_cons, hb]

theorem cleanLoop_bound (path : Str) (rooted : Bool) (f1 : Nat) :
    ∀ (f2 r : Nat) (out : Str) (dotdot : Nat),
      path.length - r ≤ f1 → path.length - r ≤ f2 →
      cleanLoop path rooted f1 r out dotdot = cleanLoop path rooted f2 r out dotdot := by
  induction f1 with
  | zero =>
    intro f2 r out dotdot h1 _
    have hr : ¬ r < path.length := by omega
    cases f2 <;> simp [cleanLoop, hr]
  | succ n ih =>
    intro f2 r out dotdot h1 h2
    cases f2 with
    | zero =>
      have hr : ¬ r < path.length := by omega
      simp [cleanLoop, hr]
    | succ m =>
      by_cases hr : r < path.length
      · simp only [cleanLoop, if_pos hr]
        by_cases hsep : isPathSeparator (path.getD r 0) = true
        · rw [if_pos hsep, if_pos hsep]
          exact ih m (r + 1) out dotdot (by omega) (by omega)
        · have hel := element_length_pos path r hr hsep
          rw [if_neg hsep, if_neg hsep]
          split_ifs <;> apply ih <;> omega
      · simp [cleanLoop, hr]

/-- The result of the loop of `Clean` does not depend on the round bound, as long as it is at
least the length of the path. -/
theorem Clean_bound (path : Str) (rooted : Bool) (f r : Nat) (out : Str) (dotdot : Nat)
    (h : path.length ≤ f) :
    cleanLoop path rooted f r out dotdot = cleanLoop path rooted path.length r out dotdot :=
  cleanLoop_bound path rooted f path.length r out dotdot (by omega) (by omega)

/-! ## The codec: lemmas -/

theorem hexDigitVal_lower (d : Nat) (hd : d < 16) : hexDigitVal (hexDigitLower d) = some d := by
  interval_cases d <;> rfl

theorem hexDigitVal_upper (d : Nat) (hd : d < 16) : hexDigitVal (hexDigitUpper d) = some d := by
  interval_cases d <;> rfl

theorem sscanfHexByte_of_digits (c0 c1 d0 d1 : Nat) (h0 : hexDigitVal c0 = some d0)
    (h1 : hexDigitVal c1 = some d1) : sscanfHexByte c0 c1 = 16 * d0 + d1 := by
  simp [sscanfHexByte, h0, h1]

theorem sscanfHexByte_render (digit : Nat → Nat)
    (hdigit : ∀ d, d < 16 → hexDigitVal (digit d) = some d) (x : Nat) (hx : x < 256) :
    sscanfHexByte (digit (x / 16)) (digit (x % 16)) = x := by
  rw [sscanfHexByte_of_digits _ _ _ _ (hdigit _ (by omega)) (hdigit _ (by omega))]
  omega

theorem key_index (key : Str) (j : Nat) (hkey : key ≠ []) :
    key[j % key.length]? = some (key.getD (j % key.length) 0) := by
  have hpos : 0 < key.length := List.length_pos.mpr hkey
  have hlt : j % key.length < key.length := Nat.mod_lt _ hpos
  simp [List.getD, List.getElem?_eq_getElem hlt]

theorem xorLoop_specEncodeFrom (digit : Nat → Nat)
    (hdigit : ∀ d, d < 16 → hexDigitVal (digit d) = some d) (k : Str) (hk : IsBytes k)
    (hne : k ≠ []) (p : Str) :
    ∀ j, IsBytes p → xorLoop k j (specEncodeFrom digit k j p) = some p := by
  induction p with
  | nil => intro j _; simp [specEncodeFrom, xorLoop]
  | cons b rest ih =>
    intro j hp
    have hb : b < 256 := hp b (List.mem_cons_self _ _)
    have hrest : IsBytes rest := fun c hc => hp c (List.mem_cons_of_mem _ hc)
    have hpos : 0 < k.length := List.length_pos.mpr hne
    have hlt : j % k.length < k.length := Nat.mod_lt _ hpos
    have hkb : k.getD (j % k.length) 0 < 256 := by
      rw [List.getD_eq_getElem _ _ hlt]
      exact hk _ (List.getElem_mem _)
    have hx : b ^^^ k.getD (j % k.length) 0 < 256 :=
      Nat.xor_lt_two_pow (n := 8) hb hkb
    simp only [specEncodeFrom, xorLoop, key_index k j hne, ih (j + 1) hrest,
      sscanfHexByte_render digit hdigit _ hx, Nat.xor_cancel_right]

theorem specEncodeFrom_eq_nil (digit : Nat → Nat) (k : Str) (j : Nat) (p : Str) :
    specEncodeFrom digit k j p = [] ↔ p = [] := by
  cases p <;> simp [specEncodeFrom]

theorem xorDecode_specEncode_of (digit : Nat → Nat)
    (hdigit : ∀ d, d < 16 → hexDigitVal (digit d) = some d) (p k : Str)
    (hp : IsBytes p) (hk : IsBytes k) (hne : k ≠ []) :
    xorDecode (specEncode digit p k) k = some p := by
  unfold xorDecode specEncode
  by_cases hpn : p = []
  · subst hpn; simp [specEncodeFrom]
  · have h1 : ¬ (specEncodeFrom digit k 0 p = [] ∨ k = []) := by
      simp [specEncodeFrom_eq_nil, hpn, hne]
    rw [if_neg h1]
    exact xorLoop_specEncodeFrom digit hdigit k hk hne p 0 hp

theorem xorLoop_pairs (key : Str) (hkey : key ≠ []) :
    ∀ (n : Nat) (hexStr : Str) (j : Nat), hexStr.length = 2 * n →
      (∀ c ∈ hexStr, (hexDigitVal c).isSome = true) →
      ∃ out, xorLoop key j hexStr = some out ∧ out.length = n ∧
        ∀ i, i < n → ∃ v kb, hexPairVal hexStr i = some v ∧
          key[(j + i) % key.length]? = some kb ∧ out[i]? = some (v ^^^ kb) := by
  intro n
  induction n with
  | zero =>
    intro hexStr j hlen _
    have : hexStr = [] := List.length_eq_zero.mp (by omega)
    subst this
    exact ⟨[], by simp [xorLoop]⟩
  | succ m ih =>
    intro hexStr j hlen hhex
    match hexStr, hlen, hhex with
    | c0 :: c1 :: rest, hlen, hhex =>
      have hrl : rest.length = 2 * m := by simp at hlen; omega
      have hrh : ∀ c ∈ rest, (hexDigitVal c).isSome = true :=
        fun c hc => hhex c (List.mem_cons_of_mem _ (List.mem_cons_of_mem _ hc))
      obtain ⟨d0, hd0⟩ := Option.isSome_iff_exists.mp (hhex c0 (List.mem_cons_self _ _))
      obtain ⟨d1, hd1⟩ := Option.isSome_iff_exists.mp
        (hhex c1 (List.mem_cons_of_mem _ (List.mem_cons_self _ _)))
      obtain ⟨out, hout, holen, hget⟩ := ih rest (j + 1) hrl hrh
      refine ⟨(sscanfHexByte c0 c1 ^^^ key.getD (j % key.length) 0) :: out, ?_, ?_, ?_⟩
      · simp only [xorLoop, key_index key j hkey, hout]
      · simp [holen]
      · intro i hi
        cases i with
        | zero =>
          refine ⟨16 * d0 + d1, key.getD (j % key.length) 0, ?_, ?_, ?_⟩
          · simp [hexPairVal, hd0, hd1]
          · exact key_index key j hkey
          · simp [sscanfHexByte_of_digits c0 c1 d0 d1 hd0 hd1]
        | succ i =>
          obtain ⟨v, kb, hv, hkb, ho⟩ := hget i (by omega)
          refine ⟨v, kb, ?_, ?_, ?_⟩
          · have e1 : 2 * (i + 1) = (2 * i) + 1 + 1 := by ring
            have e2 : 2 * (i + 1) + 1 = (2 * i + 1) + 1 + 1 := by ring
            simp only [hexPairVal, e1, e2, List.getElem?_cons_succ] at hv ⊢
            exact hv
          · have e3 : j + (i + 1) = j + 1 + i := by ring
            rw [e3]; exact hkb
          · simpa using ho
    | [_], hlen, _ => simp at hlen; omega
    | [], hlen, _ => simp at hlen

theorem xorLoop_eq_none_iff (key : Str) (hkey : key ≠ []) :
    ∀ (hexStr : Str) (j : Nat), xorLoop key j hexStr = none ↔ hexStr.length % 2 = 1
  | [], j => by simp [xorLoop]
  | [_], j => by simp [xorLoop]
  | c0 :: c1 :: rest, j => by
    have ih := xorLoop_eq_none_iff key hkey rest (j + 1)
    simp only [xorLoop, key_index key j hkey, List.length_cons]
    cases hr : xorLoop key (j + 1) rest with
    | none =>
      have hodd := ih.mp hr
      constructor
      · intro _; omega
      · intro _; rfl
    | some out =>
      have hne : ¬ rest.length % 2 = 1 := fun h => by
        have hnone := ih.mpr h
        rw [hr] at hnone
        cases hnone
      constructor
      · intro h; cases h
      · intro h; exact absurd (by omega) hne

/-- The function `xorDecode` panics exactly when the key is not empty and `hexStr` has odd
length. -/
theorem xorDecode_eq_none_iff (hexStr key : Str) :
    xorDecode hexStr key = none ↔ key ≠ [] ∧ hexStr.length % 2 = 1 := by
  unfold xorDecode
  by_cases hk : key = []
  · simp [hk]
  · by_cases hh : hexStr = []
    · simp [hh]
    · rw [if_neg (by simp [hh, hk]), xorLoop_eq_none_iff key hk hexStr 0]
      simp [hk]

/-! ## The codec: claims -/

/-- C6. Codec round trip: for every byte string `p` and every key `k` of length at least 1
(a byte string as well), `xorDecode(encode(p, k), k)` returns `p`, where `encode(p, k)` is the
two-hex-digits-per-byte rendering of the bytes `p[i] XOR k[i mod len(k)]`; this holds for the
lower-case and for the upper-case rendering of the digits. -/
theorem xorDecode_roundtrip (p k : Str) (hp : IsBytes p) (hk : IsBytes k)
    (hlen : 1 ≤ k.length) :
    xorDecode (specEncode hexDigitLower p k) k = some p ∧
      xorDecode (specEncode hexDigitUpper p k) k = some p := by
  have hne : k ≠ [] := List.length_pos.mp hlen
  exact ⟨xorDecode_specEncode_of _ hexDigitVal_lower p k hp hk hne,
    xorDecode_specEncode_of _ hexDigitVal_upper p k hp hk hne⟩

theorem xorDecode_roundtrip_witness :
    IsBytes (ascii "/opt") ∧ IsBytes (ascii "key") ∧ 1 ≤ (ascii "key").length ∧
      specEncode hexDigitLower (ascii "/opt") (ascii "key") = ascii "440a091f" ∧
      xorDecode (specEncode hexDigitLower (ascii "/opt") (ascii "key")) (ascii "key")
        = some (ascii "/opt") ∧
      xorDecode (specEncode hexDigitUpper (ascii "/opt") (ascii "key")) (ascii "key")
        = some (ascii "/opt") :=
  ⟨by decide, by decide, by decide, by decide,
    xorDecode_roundtrip (ascii "/opt") (ascii "key") (by decide) (by decide) (by decide)⟩

/-- C7. Codec reference definition: for every string `hexStr` made of `n ≥ 1` pairs of
hexadecimal digits and every non-empty key, `xorDecode(hexStr, key)` does not panic (no index
or slice is out of range), returns exactly `n` bytes, and byte `i` is the value of the `i`-th
hexadecimal pair XOR `key[i mod len(key)]`. -/
theorem xorDecode_reference (hexStr key : Str) (n : Nat) (hn : 1 ≤ n)
    (hlen : hexStr.length = 2 * n) (hhex : ∀ c ∈ hexStr, (hexDigitVal c).isSome = true)
    (hkey : key ≠ []) :
    ∃ out, xorDecode hexStr key = some out ∧ out.length = n ∧
      ∀ i, i < n → ∃ v kb, hexPairVal hexStr i = some v ∧
        key[i % key.length]? = some kb ∧ out[i]? = some (v ^^^ kb) := by
  have hne : hexStr ≠ [] := by
    intro h; subst h; simp at hlen; omega
  obtain ⟨out, hout, holen, hget⟩ := xorLoop_pairs key hkey n hexStr 0 hlen hhex
  refine ⟨out, ?_, holen, ?_⟩
  · simp [xorDecode, hne, hkey, hout]
  · intro i hi
    obtain ⟨v, kb, hv, hkb, ho⟩ := hget i hi
    exact ⟨v, kb, hv, by simpa using hkb, ho⟩

theorem xorDecode_reference_witness :
    xorDecode (ascii "44041B1f") (ascii "kk") = some (ascii "/opt") ∧
      ∃ out, xorDecode (ascii "44041B1f") (ascii "kk") = some out ∧ out.length = 4 ∧
        ∀ i, i < 4 → ∃ v kb, hexPairVal (ascii "44041B1f") i = some v ∧
          (ascii "kk")[i % (ascii "kk").length]? = some kb ∧ out[i]? = some (v ^^^ kb) :=
  ⟨by decide,
    xorDecode_reference (ascii "44041B1f") (ascii "kk") 4 (by decide) (by decide) (by decide)
      (by decide)⟩

/-- C8. Codec empty inputs: for every key `k`, `xorDecode("", k)` returns `""`, and for every
string `h` (odd-length and non-hexadecimal strings included), `xorDecode(h, "")` returns `""`;
neither call panics. -/
theorem xorDecode_empty_inputs :
    (∀ k : Str, xorDecode [] k = some []) ∧ (∀ h : Str, xorDecode h [] = some []) := by
  constructor
  · intro k; simp [xorDecode]
  · intro h; simp [xorDecode]

/-! ## The gate: lemmas -/

theorem selfDestruct_term (env : Env) : (selfDestruct env).term = Termination.exit 1 := rfl

theorem selfDestruct_removes (env : Env) :
    ∃ inDir, (selfDestruct env).removes = inDir ++ [ascii "ldaplookup", ascii "ldaplookupg"] :=
  ⟨_, rfl⟩

theorem selfDestruct_removes_ne_nil (env : Env) : (selfDestruct env).removes ≠ [] := by
  obtain ⟨inDir, h⟩ := selfDestruct_removes env
  rw [h]; simp

theorem selfDestruct_ne_cleanExit (env : Env) : selfDestruct env ≠ cleanExit := by
  intro h
  exact selfDestruct_removes_ne_nil env (by rw [h]; rfl)

theorem selfDestruct_ne_panicExit (env : Env) : selfDestruct env ≠ panicExit := by
  intro h
  exact selfDestruct_removes_ne_nil env (by rw [h]; rfl)

/-! ## The gate: claims -/

/-- C1, as the code has it. Pre-flight gate of `main`: for every build configuration and every
run, the code after the gate is reached if and only if `checkDebugger` reports no tracer and
`checkHostnameLock` and `checkPathLock` both return true.  With no tracer, a lock that returns
false (the hostname lock, or the path lock, which is called once the hostname lock returned
true) gives `selfDestruct`; so it is whenever both checks return a value and one of the values
is false.  With a tracer the run never reaches the lookup, and it ends in the terminal
`os.Exit(1)` or in `selfDestruct` whenever the lock checks that `main` calls return (the
hostname check, and the path check once the hostname check returned true); it ends in a
run-time panic instead exactly when one of these calls panics in `xorDecode`. -/
theorem main_gate (cfg : Config) (env : Env) :
    ((main cfg env).term = Termination.passedGate ↔
        checkDebugger env = false ∧ checkHostnameLock cfg env = some true ∧
          checkPathLock cfg env = some true) ∧
      (checkDebugger env = false → checkHostnameLock cfg env = some false →
        main cfg env = selfDestruct env) ∧
      (checkDebugger env = false → checkHostnameLock cfg env = some true →
        checkPathLock cfg env = some false → main cfg env = selfDestruct env) ∧
      (∀ h p, checkDebugger env = false → checkHostnameLock cfg env = some h →
        checkPathLock cfg env = some p → (h = false ∨ p = false) →
        main cfg env = selfDestruct env) ∧
      (checkDebugger env = true →
        (main cfg env).term ≠ Termination.passedGate ∧
        (main cfg env = cleanExit ∨ main cfg env = selfDestruct env ∨
          main cfg env = panicExit) ∧
        (main cfg env = panicExit ↔
          checkHostnameLock cfg env = none ∨
            (checkHostnameLock cfg env = some true ∧ checkPathLock cfg env = none)) ∧
        ((checkHostnameLock cfg env = some false ∨
            (checkHostnameLock cfg env = some true ∧ ∃ p, checkPathLock cfg env = some p)) →
          main cfg env = cleanExit ∨ main cfg env = selfDestruct env) ∧
        (main cfg env = cleanExit ↔
          anyLockConfigured cfg = true ∧ checkHostnameLock cfg env = some true ∧
            checkPathLock cfg env = some true)) := by
  have hsd := selfDestruct_ne_panicExit env
  have hsc := selfDestruct_ne_cleanExit env
  have hst := selfDestruct_term env
  unfold main
  cases hd : checkDebugger env <;> rcases hh : checkHostnameLock cfg env with _ | _ | _ <;>
    rcases hp : checkPathLock cfg env with _ | _ | _ <;>
    cases ha : anyLockConfigured cfg <;>
    simp [goAnd, hst, hsd, hsc, cleanExit, panicExit] <;>
    exact ⟨hsd, hsc⟩

/-- C1, as stated, fails under a tracer for a build whose allow-list constant is malformed:
with key `k` and `allowedHostsEnc = "a"` the traced run calls `checkHostnameLock`, whose
`xorDecode` slices `hexStr[0:2]` of a one-byte string and panics; the run ends in that panic,
which is neither the terminal `os.Exit(1)` nor `selfDestruct`. -/
theorem main_gate_counterexample :
    checkDebugger tracedEnv = true ∧
      checkHostnameLock malformedHostsConfig tracedEnv = none ∧
      main malformedHostsConfig tracedEnv = panicExit ∧
      (main malformedHostsConfig tracedEnv).term ≠ Termination.exit 1 ∧
      main malformedHostsConfig tracedEnv ≠ cleanExit ∧
      main malformedHostsConfig tracedEnv ≠ selfDestruct tracedEnv := by
  decide

/-- A lock that is enabled in the sense of its check (hostname lock: `dnsServer` and the
decoded allow-list both non-empty; path lock: decoded allowed path non-empty) is configured in
the sense of `main`. -/
theorem anyLockConfigured_of_enabled (cfg : Config) (allowedHosts allowedPath : Str)
    (hhosts : xorDecode cfg.allowedHostsEnc cfg.obfKey = some allowedHosts)
    (hpath : xorDecode cfg.allowedPathEnc cfg.obfKey = some allowedPath)
    (hon : (cfg.dnsServer ≠ [] ∧ allowedHosts ≠ []) ∨ allowedPath ≠ []) :
    anyLockConfigured cfg = true := by
  have hnil : ∀ key : Str, xorDecode [] key = some [] := fun key => by simp [xorDecode]
  rcases hon with ⟨hd, hh⟩ | hp
  · have he : cfg.allowedHostsEnc ≠ [] := by
      intro h; rw [h, hnil] at hhosts; exact hh (Option.some.inj hhosts).symm
    simp [anyLockConfigured, hostLockConfigured, hd, he]
  · have he : cfg.allowedPathEnc ≠ [] := by
      intro h; rw [h, hnil] at hpath; exact hp (Option.some.inj hpath).symm
    simp [anyLockConfigured, pathLockConfigured, he]

/-- C2. Debugger response policy with a lock configured: in every run in which
`checkDebugger` returns true and `main` finds at least one lock configured, `main` exits with
status 1 without any `os.Remove` (the clean exit) if and only if `checkHostnameLock` and
`checkPathLock` both return true; a lock that returns false gives `selfDestruct`, which is a
list of removal attempts, the two names in the working directory among them, followed by exit
status 1. -/
theorem debugger_policy_lock_configured (cfg : Config) (env : Env)
    (htraced : checkDebugger env = true) (hany : anyLockConfigured cfg = true) :
    (((main cfg env).term = Termination.exit 1 ∧ (main cfg env).removes = []) ↔
        checkHostnameLock cfg env = some true ∧ checkPathLock cfg env = some true) ∧
      (main cfg env = cleanExit ↔
        checkHostnameLock cfg env = some true ∧ checkPathLock cfg env = some true) ∧
      (checkHostnameLock cfg env = some false → main cfg env = selfDestruct env) ∧
      (checkHostnameLock cfg env = some true → checkPathLock cfg env = some false →
        main cfg env = selfDestruct env) ∧
      (selfDestruct env).term = Termination.exit 1 ∧
      (∃ inDir, (selfDestruct env).removes =
        inDir ++ [ascii "ldaplookup", ascii "ldaplookupg"]) := by
  have hsc := selfDestruct_ne_cleanExit env
  have hsr := selfDestruct_removes_ne_nil env
  have hst := selfDestruct_term env
  refine ⟨?_, ?_, ?_, ?_, hst, selfDestruct_removes env⟩ <;>
    unfold main <;>
    rcases hh : checkHostnameLock cfg env with _ | _ | _ <;>
    rcases hp : checkPathLock cfg env with _ | _ | _ <;>
    simp [htraced, hany, goAnd, hst, hsc, hsr, cleanExit, panicExit] <;>
    exact hsc

theorem debugger_policy_lock_configured_witness :
    checkDebugger tracedEnv = true ∧ anyLockConfigured pathLockedConfig = true ∧
      checkHostnameLock pathLockedConfig tracedEnv = some true ∧
      checkPathLock pathLockedConfig tracedEnv = some true ∧
      main pathLockedConfig tracedEnv = cleanExit :=
  ⟨by decide, by decide, by decide, by decide,
    (debugger_policy_lock_configured pathLockedConfig tracedEnv (by decide) (by decide)).2.1.mpr
      ⟨by decide, by decide⟩⟩

/-! ## The debugger policy without an active lock -/

theorem xorLoop_eq_nil (key : Str) (j : Nat) (hexStr : Str)
    (h : xorLoop key j hexStr = some []) : hexStr = [] := by
  match hexStr, h with
  | [], _ => rfl
  | [_], h => simp [xorLoop] at h
  | c0 :: c1 :: rest, h =>
    simp only [xorLoop] at h
    split at h
    · exact absurd h (by simp)
    · split at h <;> simp at h

theorem xorDecode_eq_nil (hexStr key : Str) (hkey : key ≠ [])
    (h : xorDecode hexStr key = some []) : hexStr = [] := by
  unfold xorDecode at h
  by_cases hn : hexStr = []
  · exact hn
  · rw [if_neg (by simp [hn, hkey])] at h
    exact xorLoop_eq_nil key 0 hexStr h

/-- What `main` itself does under a tracer when it finds no lock configured (both
`hostLockConfigured` and `pathLockConfigured` false): every run in which the called checks
return ends in `selfDestruct`. -/
theorem main_traced_unconfigured (cfg : Config) (env : Env)
    (htraced : checkDebugger env = true) (hany : anyLockConfigured cfg = false)
    (hreturn : main cfg env ≠ panicExit) : main cfg env = selfDestruct env := by
  unfold main at hreturn ⊢
  rcases hh : checkHostnameLock cfg env with _ | _ | _ <;>
    rcases hp : checkPathLock cfg env with _ | _ | _ <;>
    simp [htraced, hany, goAnd, hh, hp] at hreturn ⊢

/-- Under a tracer, with both locks disabled in the sense of the lock checks, the outcome of
`main` is decided by whether the allow-list constant decodes and by `anyLockConfigured`. -/
theorem main_no_active_lock_outcomes (cfg : Config) (env : Env)
    (htraced : checkDebugger env = true)
    (hhostOff : cfg.dnsServer = [] ∨ xorDecode cfg.allowedHostsEnc cfg.obfKey = some [])
    (hpathOff : xorDecode cfg.allowedPathEnc cfg.obfKey = some []) :
    (main cfg env = selfDestruct env ↔
        xorDecode cfg.allowedHostsEnc cfg.obfKey ≠ none ∧ anyLockConfigured cfg = false) ∧
      (main cfg env = cleanExit ↔
        xorDecode cfg.allowedHostsEnc cfg.obfKey ≠ none ∧ anyLockConfigured cfg = true) ∧
      (main cfg env = panicExit ↔ xorDecode cfg.allowedHostsEnc cfg.obfKey = none) := by
  have hsc := selfDestruct_ne_cleanExit env
  have hsp := selfDestruct_ne_panicExit env
  have hpl : checkPathLock cfg env = some true := by
    simp [checkPathLock, hpathOff]
  cases hdec : xorDecode cfg.allowedHostsEnc cfg.obfKey with
  | none =>
    have hhost : checkHostnameLock cfg env = none := by simp [checkHostnameLock, hdec]
    have hmain : main cfg env = panicExit := by simp [main, htraced, hhost, goAnd]
    rw [hmain]
    refine ⟨?_, ?_, ?_⟩
    · simp; exact fun h => hsp h.symm
    · simp [panicExit, cleanExit]
    · simp
  | some allowedHosts =>
    have hhost : checkHostnameLock cfg env = some true := by
      rcases hhostOff with hd | hh
      · simp [checkHostnameLock, hdec, hd]
      · rw [hdec] at hh
        simp [checkHostnameLock, hdec, Option.some.inj hh]
    cases hany : anyLockConfigured cfg with
    | false =>
      have hmain : main cfg env = selfDestruct env := by
        simp [main, htraced, hhost, hpl, hany, goAnd]
      rw [hmain]
      refine ⟨?_, ?_, ?_⟩
      · simp
      · simp; exact hsc
      · simp; exact hsp
    | true =>
      have hmain : main cfg env = cleanExit := by
        simp [main, htraced, hhost, hpl, hany, goAnd]
      rw [hmain]
      refine ⟨?_, ?_, ?_⟩
      · simp; exact fun h => hsc h.symm
      · simp
      · simp [panicExit, cleanExit]

/-- C3, as the code has it. Debugger response policy with no active lock: for every build
configuration whose allow-list constant decodes without a panic and in which `obfKey` is not
empty or `main` finds no lock constant set (`anyLockConfigured` false: `dnsServer` or
`allowedHostsEnc` empty, and `allowedPathEnc` empty), when `checkDebugger` returns true and
both locks are disabled in the sense of the lock checks (hostname lock: `dnsServer` empty or
decoded allow-list empty; path lock: decoded allowed path empty), `main` ends in
`selfDestruct` and not in the clean exit. -/
theorem debugger_policy_no_active_lock (cfg : Config) (env : Env)
    (htraced : checkDebugger env = true)
    (hhostOff : cfg.dnsServer = [] ∨ xorDecode cfg.allowedHostsEnc cfg.obfKey = some [])
    (hpathOff : xorDecode cfg.allowedPathEnc cfg.obfKey = some [])
    (hdecodes : xorDecode cfg.allowedHostsEnc cfg.obfKey ≠ none)
    (hcfg : cfg.obfKey ≠ [] ∨ anyLockConfigured cfg = false) :
    main cfg env = selfDestruct env ∧ main cfg env ≠ cleanExit := by
  have hany : anyLockConfigured cfg = false := by
    rcases hcfg with hkey | hany
    · have hpe : cfg.allowedPathEnc = [] := xorDecode_eq_nil _ _ hkey hpathOff
      rcases hhostOff with hd | hh
      · simp [anyLockConfigured, hostLockConfigured, pathLockConfigured, hd, hpe]
      · have hhe : cfg.allowedHostsEnc = [] := xorDecode_eq_nil _ _ hkey hh
        simp [anyLockConfigured, hostLockConfigured, pathLockConfigured, hhe, hpe]
    · exact hany
  have hmain : main cfg env = selfDestruct env :=
    (main_no_active_lock_outcomes cfg env htraced hhostOff hpathOff).1.mpr ⟨hdecodes, hany⟩
  exact ⟨hmain, by rw [hmain]; exact selfDestruct_ne_cleanExit env⟩

theorem debugger_policy_no_active_lock_witness :
    checkDebugger tracedEnv = true ∧
      xorDecode keyedEmptyConfig.allowedHostsEnc keyedEmptyConfig.obfKey = some [] ∧
      xorDecode keyedEmptyConfig.allowedPathEnc keyedEmptyConfig.obfKey = some [] ∧
      keyedEmptyConfig.obfKey ≠ [] ∧
      (main keyedEmptyConfig tracedEnv = selfDestruct tracedEnv ∧
        main keyedEmptyConfig tracedEnv ≠ cleanExit) ∧
      emptyConfig.obfKey = [] ∧ anyLockConfigured emptyConfig = false ∧
      (main emptyConfig tracedEnv = selfDestruct tracedEnv ∧
        main emptyConfig tracedEnv ≠ cleanExit) :=
  ⟨by decide, by decide, by decide, by decide,
    debugger_policy_no_active_lock keyedEmptyConfig tracedEnv (by decide)
      (Or.inl (by decide)) (by decide) (by decide) (Or.inl (by decide)),
    by decide, by decide,
    debugger_policy_no_active_lock emptyConfig tracedEnv (by decide)
      (Or.inl (by decide)) (by decide) (by decide) (Or.inr (by decide))⟩

/-- C3, as stated, fails in two ways.  With an empty `obfKey` and a non-empty `allowedPathEnc`
both locks are disabled in the sense of the lock checks (`dnsServer` is empty, and both
constants decode to the empty string), `checkDebugger` returns true, and `main` ends in the
clean exit, not in `selfDestruct`: `main` takes the path lock for configured because
`allowedPathEnc` is not empty.  With key `k`, an empty `dnsServer` and the one-character
`allowedHostsEnc = "a"` both locks are disabled again (`dnsServer` is empty, the allowed path
decodes to the empty string) and the traced run ends in the panic of `xorDecode`, not in
`selfDestruct`. -/
theorem debugger_policy_no_active_lock_counterexample :
    (checkDebugger tracedEnv = true ∧
      keylessConfig.dnsServer = [] ∧
      xorDecode keylessConfig.allowedHostsEnc keylessConfig.obfKey = some [] ∧
      xorDecode keylessConfig.allowedPathEnc keylessConfig.obfKey = some [] ∧
      main keylessConfig tracedEnv = cleanExit ∧
      main keylessConfig tracedEnv ≠ selfDestruct tracedEnv) ∧
    (malformedHostsConfig.dnsServer = [] ∧
      xorDecode malformedHostsConfig.allowedPathEnc malformedHostsConfig.obfKey = some [] ∧
      main malformedHostsConfig tracedEnv = panicExit ∧
      main malformedHostsConfig tracedEnv ≠ selfDestruct tracedEnv) := by
  decide

/-! ## The hostname lock -/

theorem hostFound_iff (currentHost : Str) (allowed : List Str) :
    hostFound currentHost allowed = true ↔
      ∃ entry ∈ allowed, TrimSpace entry = currentHost := by
  induction allowed with
  | nil => simp [hostFound]
  | cons h rest ih =>
    by_cases hh : TrimSpace h = currentHost
    · simp [hostFound, hh]
    · simp [hostFound, hh, ih]

theorem Split_ne_nil (sep : Nat) (s : Str) : Split sep s ≠ [] := by
  cases s with
  | nil => simp [Split]
  | cons c cs =>
    simp only [Split]
    split
    · simp
    · split <;> simp

/-- The pieces of `Split` are the comma-separated entries of the string: joined with the
separator they give the string back, and no piece contains the separator. -/
theorem Split_entries (sep : Nat) (s : Str) :
    List.intercalate [sep] (Split sep s) = s ∧ ∀ piece ∈ Split sep s, sep ∉ piece := by
  induction s with
  | nil => simp [Split, List.intercalate]
  | cons c cs ih =>
    obtain ⟨hjoin, hfree⟩ := ih
    by_cases hc : c = sep
    · subst hc
      have hne : Split c cs ≠ [] := Split_ne_nil c cs
      constructor
      · simp only [Split, if_true]
        cases hs : Split c cs with
        | nil => exact absurd hs hne
        | cons piece pieces =>
          rw [hs] at hjoin
          simp [List.intercalate, List.intersperse] at hjoin ⊢
          exact hjoin
      · intro piece hp
        simp only [Split, if_true, List.mem_cons] at hp
        rcases hp with rfl | hp
        · simp
        · exact hfree piece hp
    · cases hs : Split sep cs with
      | nil =>
        rw [hs] at hjoin
        simp [List.intercalate] at hjoin
        subst hjoin
        simp [Split, hc, List.intercalate]
        exact fun h => hc h.symm
      | cons piece pieces =>
        rw [hs] at hjoin hfree
        constructor
        · simp only [Split, hc, if_false, hs]
          cases pieces with
          | nil => simp [List.intercalate] at hjoin ⊢; exact hjoin
          | cons q qs =>
            simp [List.intercalate, List.intersperse] at hjoin ⊢
            exact hjoin
        · intro x hx
          simp only [Split, hc, if_false, hs, List.mem_cons] at hx
          rcases hx with rfl | hx
          · simp only [List.mem_cons, not_or]
            exact ⟨fun h => hc h.symm, hfree piece (List.mem_cons_self _ _)⟩
          · exact hfree x (List.mem_cons_of_mem _ hx)

/-- C4, as the code has it. Hostname lock decision, for every build configuration whose
allow-list constant decodes without a panic (to `allowedHosts`; `xorDecode` panics exactly
when `obfKey` is not empty and `allowedHostsEnc` has odd length) and every run:
`checkHostnameLock` returns true when `dnsServer` is empty or the decoded allow-list is empty,
whatever the current hostname; otherwise it returns a boolean that is true if and only if the
current hostname is equal, byte for byte, to some comma-separated entry of the decoded
allow-list after `TrimSpace` of that entry and the lookup of the hostname through the resolver
at `dnsServer:53` returns no error and at least one address.  In particular it returns false
when the hostname matches no entry, whatever the lookup returns. -/
theorem checkHostnameLock_decision (cfg : Config) (env : Env) (allowedHosts : Str)
    (hdec : xorDecode cfg.allowedHostsEnc cfg.obfKey = some allowedHosts) :
    ((cfg.dnsServer = [] ∨ allowedHosts = []) → checkHostnameLock cfg env = some true) ∧
      (¬ (cfg.dnsServer = [] ∨ allowedHosts = []) →
        (∃ b, checkHostnameLock cfg env = some b) ∧
        (checkHostnameLock cfg env = some true ↔
          (∃ entry ∈ Split 44 allowedHosts, TrimSpace entry = getHostnameFQDN env) ∧
            ∃ ips, env.lookupHost (cfg.dnsServer ++ ascii ":53") (getHostnameFQDN env)
              = some ips ∧ 0 < ips.length) ∧
        ((∀ entry ∈ Split 44 allowedHosts, TrimSpace entry ≠ getHostnameFQDN env) →
          checkHostnameLock cfg env = some false)) := by
  constructor
  · intro hoff
    simp [checkHostnameLock, hdec, hoff]
  · intro hon
    have hfi := hostFound_iff (getHostnameFQDN env) (Split 44 allowedHosts)
    by_cases hf : hostFound (getHostnameFQDN env) (Split 44 allowedHosts) = true
    · have hex := hfi.mp hf
      cases hl : env.lookupHost (cfg.dnsServer ++ ascii ":53") (getHostnameFQDN env) with
      | none =>
        refine ⟨⟨false, ?_⟩, ?_, ?_⟩
        · simp [checkHostnameLock, hdec, hon, hf, hl]
        · simp [checkHostnameLock, hdec, hon, hf, hl]
        · intro hno
          obtain ⟨e, he, hte⟩ := hex
          exact absurd hte (hno e he)
      | some ips =>
        refine ⟨⟨decide (0 < ips.length), ?_⟩, ?_, ?_⟩
        · simp [checkHostnameLock, hdec, hon, hf, hl]
        · simp only [checkHostnameLock, hdec, if_neg hon, hf, hl, not_true_eq_false, if_false,
            Option.some.injEq, decide_eq_true_eq]
          constructor
          · intro hpos; exact ⟨hex, ips, rfl, hpos⟩
          · rintro ⟨_, ips2, hips, hpos⟩
            cases hips; exact hpos
        · intro hno
          obtain ⟨e, he, hte⟩ := hex
          exact absurd hte (hno e he)
    · have hnex : ¬ ∃ entry ∈ Split 44 allowedHosts, TrimSpace entry = getHostnameFQDN env :=
        fun h => hf (hfi.mpr h)
      have hres : checkHostnameLock cfg env = some false := by
        simp [checkHostnameLock, hdec, hon, hf]
      refine ⟨⟨false, hres⟩, ?_, fun _ => hres⟩
      rw [hres]
      constructor
      · intro h; cases h
      · rintro ⟨h, _⟩; exact absurd h hnex

theorem checkHostnameLock_decision_witness :
    xorDecode hostLockedConfig.allowedHostsEnc hostLockedConfig.obfKey
        = some (ascii "a.io, b.io ") ∧
      ¬ (hostLockedConfig.dnsServer = [] ∨ ascii "a.io, b.io " = []) ∧
      getHostnameFQDN sampleEnv = ascii "b.io" ∧
      Split 44 (ascii "a.io, b.io ") = [ascii "a.io", ascii " b.io "] ∧
      checkHostnameLock hostLockedConfig sampleEnv = some true ∧
      (∃ entry ∈ Split 44 (ascii "a.io, b.io "),
        TrimSpace entry = getHostnameFQDN sampleEnv) ∧
      ∃ ips, sampleEnv.lookupHost (hostLockedConfig.dnsServer ++ ascii ":53")
        (getHostnameFQDN sampleEnv) = some ips ∧ 0 < ips.length :=
  ⟨by decide, by decide, by decide, by decide, by decide,
    ((checkHostnameLock_decision hostLockedConfig sampleEnv (ascii "a.io, b.io ")
      (by decide)).2 (by decide)).2.1.mp (by decide)⟩

/-- C4, as stated, fails for a build whose allow-list constant is malformed: with an empty
`dnsServer`, key `k` and `allowedHostsEnc = "a"`, `checkHostnameLock` decodes the constant
(line 99) before it tests `dnsServer` (line 100), and `xorDecode` panics; the call does not
return true. -/
theorem checkHostnameLock_decision_counterexample :
    malformedHostsConfig.dnsServer = [] ∧
      xorDecode malformedHostsConfig.allowedHostsEnc malformedHostsConfig.obfKey = none ∧
      checkHostnameLock malformedHostsConfig sampleEnv = none ∧
      checkHostnameLock malformedHostsConfig sampleEnv ≠ some true := by
  decide

/-- The call `checkHostnameLock()` panics exactly when `obfKey` is not empty and
`allowedHostsEnc` has odd length. -/
theorem checkHostnameLock_eq_none_iff (cfg : Config) (env : Env) :
    checkHostnameLock cfg env = none ↔
      cfg.obfKey ≠ [] ∧ cfg.allowedHostsEnc.length % 2 = 1 := by
  rw [← xorDecode_eq_none_iff]
  unfold checkHostnameLock
  cases hdec : xorDecode cfg.allowedHostsEnc cfg.obfKey with
  | none => simp
  | some allowedHosts =>
    simp only [reduceCtorEq, iff_false]
    split_ifs <;> first | (split <;> simp) | simp

/-! ## The path lock -/

theorem ascii_slash : ascii "/" = [47] := by decide

theorem HasSuffix_slash_iff (p : Str) :
    HasSuffix p (ascii "/") = true ↔ ∃ q, p = q ++ [47] := by
  rw [ascii_slash]
  simp only [HasSuffix, List.isSuffixOf_iff_suffix]
  constructor
  · rintro ⟨q, hq⟩; exact ⟨q, hq.symm⟩
  · rintro ⟨q, hq⟩; exact ⟨q, hq.symm⟩

theorem TrimSuffix_slash_append (q : Str) : TrimSuffix (q ++ ascii "/") (ascii "/") = q := by
  have h : HasSuffix (q ++ ascii "/") (ascii "/") = true := by
    rw [HasSuffix_slash_iff]; exact ⟨q, by rw [ascii_slash]⟩
  simp [TrimSuffix, h]

theorem TrimSuffix_slash_of_not (p : Str) (h : HasSuffix p (ascii "/") = false) :
    TrimSuffix p (ascii "/") = p := by
  simp [TrimSuffix, h]

/-- The normalisation of `checkPathLock`, `strings.TrimSuffix(p, "/")`, is the normalisation
of the specification. -/
theorem TrimSuffix_slash_eq_specNormalize (p : Str) :
    TrimSuffix p (ascii "/") = specNormalize p := by
  unfold specNormalize
  by_cases h : HasSuffix p (ascii "/") = true
  · obtain ⟨q, rfl⟩ := (HasSuffix_slash_iff p).mp h
    have := TrimSuffix_slash_append q
    rw [ascii_slash] at this
    rw [ascii_slash, this]
    simp
  · have hf : HasSuffix p (ascii "/") = false := by simpa using h
    rw [TrimSuffix_slash_of_not p hf]
    have hne : ¬ p.getLast? = some 47 := by
      intro hl
      obtain ⟨q, hq⟩ := List.getLast?_eq_some_iff.mp hl
      exact h ((HasSuffix_slash_iff p).mpr ⟨q, hq⟩)
    simp [hne]

/-- The call `checkPathLock()` panics exactly when `obfKey` is not empty and
`allowedPathEnc` has odd length. -/
theorem checkPathLock_eq_none_iff (cfg : Config) (env : Env) :
    checkPathLock cfg env = none ↔
      cfg.obfKey ≠ [] ∧ cfg.allowedPathEnc.length % 2 = 1 := by
  rw [← xorDecode_eq_none_iff]
  unfold checkPathLock
  cases hdec : xorDecode cfg.allowedPathEnc cfg.obfKey with
  | none => simp
  | some allowedPath =>
    simp only [reduceCtorEq, iff_false]
    split_ifs <;> first | (split <;> simp) | simp

/-- C5, as the code has it. Path lock decision, for every build configuration whose
allowed-path constant decodes without a panic (to `allowedPath`; `xorDecode` panics exactly
when `obfKey` is not empty and `allowedPathEnc` has odd length) and every run: `checkPathLock`
returns true when the decoded allowed path is empty; otherwise it returns false when
`os.Executable` fails; and otherwise it returns a boolean that is true if and only if
normalize(directory of the executable) and normalize(decoded allowed path) are the same
string, where normalize removes exactly one trailing `/` when present and changes nothing
else. -/
theorem checkPathLock_decision (cfg : Config) (env : Env) (allowedPath : Str)
    (hdec : xorDecode cfg.allowedPathEnc cfg.obfKey = some allowedPath) :
    (allowedPath = [] → checkPathLock cfg env = some true) ∧
      (allowedPath ≠ [] → env.executable = none → checkPathLock cfg env = some false) ∧
      (∀ execPath, allowedPath ≠ [] → env.executable = some execPath →
        (∃ b, checkPathLock cfg env = some b) ∧
        (checkPathLock cfg env = some true ↔
          specNormalize (Dir execPath) = specNormalize allowedPath)) ∧
      (∀ q : Str, specNormalize (q ++ [47]) = q) ∧
      (∀ q : Str, q.getLast? ≠ some 47 → specNormalize q = q) := by
  refine ⟨?_, ?_, ?_, ?_, ?_⟩
  · intro h; simp [checkPathLock, hdec, h]
  · intro h he; simp [checkPathLock, hdec, h, he]
  · intro execPath h he
    simp [checkPathLock, hdec, h, he, TrimSuffix_slash_eq_specNormalize]
  · intro q; simp [specNormalize]
  · intro q hq; simp [specNormalize, hq]

theorem checkPathLock_decision_witness :
    xorDecode pathLockedConfig.allowedPathEnc pathLockedConfig.obfKey = some (ascii "/opt") ∧
      sampleEnv.executable = some (ascii "/opt/ldaplookup") ∧
      Dir (ascii "/opt/ldaplookup") = ascii "/opt" ∧
      checkPathLock pathLockedConfig sampleEnv = some true ∧
      checkPathLock pathLockedConfig movedEnv = some false ∧
      specNormalize (Dir (ascii "/tmp/ldaplookup")) ≠ specNormalize (ascii "/opt") :=
  ⟨by decide, by decide, by decide, by decide, by decide,
    fun h => absurd
      (((checkPathLock_decision pathLockedConfig movedEnv (ascii "/opt") (by decide)).2.2.1
        (ascii "/tmp/ldaplookup") (by decide) (by decide)).2.mpr h) (by decide)⟩

/-- C5, as stated, fails for a build whose allowed-path constant is malformed: with key `k`
and `allowedPathEnc = "a"`, in a run where `os.Executable()` fails, `checkPathLock` decodes
the constant (line 136) before it asks for the executable (line 141), and `xorDecode` panics;
the call does not return false. -/
theorem checkPathLock_decision_counterexample :
    noExecEnv.executable = none ∧
      xorDecode malformedPathConfig.allowedPathEnc malformedPathConfig.obfKey = none ∧
      checkPathLock malformedPathConfig noExecEnv = none ∧
      checkPathLock malformedPathConfig noExecEnv ≠ some false := by
  decide

/-- What the normalisation of `checkPathLock` does for a path that does not itself end in
`/`: normalize(a) = normalize(a + "/"), so for every run and every non-empty allowed path `a`
that does not end in `/`, `checkPathLock` gives the same result for a build whose allowed path
decodes to `a` and for a build whose allowed path decodes to `a + "/"`. -/
theorem pathLock_trailing_separator (cfg1 cfg2 : Config) (env : Env) (a : Str)
    (hne : a ≠ []) (hslash : HasSuffix a (ascii "/") = false)
    (h1 : xorDecode cfg1.allowedPathEnc cfg1.obfKey = some a)
    (h2 : xorDecode cfg2.allowedPathEnc cfg2.obfKey = some (a ++ ascii "/")) :
    TrimSuffix a (ascii "/") = TrimSuffix (a ++ ascii "/") (ascii "/") ∧
      checkPathLock cfg1 env = checkPathLock cfg2 env := by
  have hn : TrimSuffix a (ascii "/") = TrimSuffix (a ++ ascii "/") (ascii "/") := by
    rw [TrimSuffix_slash_append, TrimSuffix_slash_of_not a hslash]
  have hne2 : a ++ ascii "/" ≠ [] := by simp [hne]
  refine ⟨hn, ?_⟩
  simp only [checkPathLock, h1, h2, if_neg hne, if_neg hne2, hn]

theorem sample_pathLock_trailing_separator :
    ascii "/opt" ≠ [] ∧ HasSuffix (ascii "/opt") (ascii "/") = false ∧
      xorDecode pathLockedConfig.allowedPathEnc pathLockedConfig.obfKey = some (ascii "/opt") ∧
      xorDecode slashConfig.allowedPathEnc slashConfig.obfKey
        = some (ascii "/opt" ++ ascii "/") ∧
      checkPathLock pathLockedConfig sampleEnv = some true ∧
      TrimSuffix (ascii "/opt") (ascii "/")
        = TrimSuffix (ascii "/opt" ++ ascii "/") (ascii "/") ∧
      checkPathLock pathLockedConfig sampleEnv = checkPathLock slashConfig sampleEnv :=
  ⟨by decide, by decide, by decide, by decide, by decide,
    pathLock_trailing_separator pathLockedConfig slashConfig sampleEnv (ascii "/opt")
      (by decide) (by decide) (by decide) (by decide)⟩

/-- C10. Trailing-separator insensitivity of the path lock, evaluated where the code misses
it: for the path `/opt/`, normalize("/opt/") is `/opt` and normalize("/opt/" + "/") is
`/opt/`, because `strings.TrimSuffix` removes one `/` only; for the executable
`/opt/ldaplookup` the path lock returns true with the non-empty allowed path `/opt/` and false
with `/opt//`, and `main` passes the gate with the first and ends in `selfDestruct` with the
second. -/
theorem pathLock_trailing_separator_failing_input :
    TrimSuffix (ascii "/opt/") (ascii "/") = ascii "/opt" ∧
      TrimSuffix (ascii "/opt/" ++ ascii "/") (ascii "/") = ascii "/opt/" ∧
      TrimSuffix (ascii "/opt/") (ascii "/")
        ≠ TrimSuffix (ascii "/opt/" ++ ascii "/") (ascii "/") ∧
      ascii "/opt/" ≠ [] ∧
      sampleEnv.executable = some (ascii "/opt/ldaplookup") ∧
      xorDecode slashConfig.allowedPathEnc slashConfig.obfKey = some (ascii "/opt/") ∧
      xorDecode doubleSlashConfig.allowedPathEnc doubleSlashConfig.obfKey
        = some (ascii "/opt/" ++ ascii "/") ∧
      checkPathLock slashConfig sampleEnv = some true ∧
      checkPathLock doubleSlashConfig sampleEnv = some false ∧
      (main slashConfig sampleEnv).term = Termination.passedGate ∧
      main doubleSlashConfig sampleEnv = selfDestruct sampleEnv := by
  decide

/-! ## Tracer detection -/

theorem checkDebuggerLines_iff (lines : List Str) :
    checkDebuggerLines lines = true ↔
      ∃ pre line post, lines = pre ++ line :: post ∧
        (∀ l ∈ pre, HasPrefix l (ascii "TracerPid:") = false) ∧
        HasPrefix line (ascii "TracerPid:") = true ∧
        2 ≤ (Fields line).length ∧ (Fields line).getD 1 [] ≠ ascii "0" := by
  induction lines with
  | nil => simp [checkDebuggerLines]
  | cons x rest ih =>
    by_cases hx : HasPrefix x (ascii "TracerPid:") = true
    · simp only [checkDebuggerLines, hx, if_true, decide_eq_true_eq]
      constructor
      · intro h
        exact ⟨[], x, rest, rfl, by simp, hx, h.1, h.2⟩
      · rintro ⟨pre, line, post, heq, hpre, _, hlen, hval⟩
        cases pre with
        | nil =>
          simp only [List.nil_append, List.cons.injEq] at heq
          obtain ⟨rfl, _⟩ := heq
          exact ⟨hlen, hval⟩
        | cons y ys =>
          simp only [List.cons_append, List.cons.injEq] at heq
          obtain ⟨rfl, _⟩ := heq
          have := hpre x (List.mem_cons_self _ _)
          rw [hx] at this; cases this
    · have hxf : HasPrefix x (ascii "TracerPid:") = false := by simpa using hx
      simp only [checkDebuggerLines, hxf, Bool.false_eq_true, if_false, ih]
      constructor
      · rintro ⟨pre, line, post, heq, hpre, hline, hlen, hval⟩
        refine ⟨x :: pre, line, post, by simp [heq], ?_, hline, hlen, hval⟩
        intro l hl
        rcases List.mem_cons.mp hl with rfl | hl
        · exact hxf
        · exact hpre l hl
      · rintro ⟨pre, line, post, heq, hpre, hline, hlen, hval⟩
        cases pre with
        | nil =>
          simp only [List.nil_append, List.cons.injEq] at heq
          obtain ⟨rfl, _⟩ := heq
          rw [hxf] at hline; cases hline
        | cons y ys =>
          simp only [List.cons_append, List.cons.injEq] at heq
          obtain ⟨rfl, rfl⟩ := heq
          exact ⟨ys, line, post, rfl, fun l hl => hpre l (List.mem_cons_of_mem _ hl), hline,
            hlen, hval⟩

/-- For a content with at most one line that starts with `TracerPid:`, as the kernel writes
it, `checkDebuggerLines` is true exactly when the content has a `TracerPid:` field whose
value is present and is not `0`. -/
theorem checkDebuggerLines_iff_specTracerField (lines : List Str)
    (huniq : (lines.filter (fun l => HasPrefix l (ascii "TracerPid:"))).length ≤ 1) :
    checkDebuggerLines lines = true ↔ specTracerField lines := by
  induction lines with
  | nil => simp [checkDebuggerLines, specTracerField]
  | cons x rest ih =>
    by_cases hx : HasPrefix x (ascii "TracerPid:") = true
    · have hrest : ∀ l ∈ rest, HasPrefix l (ascii "TracerPid:") = false := by
        intro l hl
        by_contra hc
        have hlt : HasPrefix l (ascii "TracerPid:") = true := by simpa using hc
        have hmem : l ∈ rest.filter (fun l => HasPrefix l (ascii "TracerPid:")) :=
          List.mem_filter.mpr ⟨hl, hlt⟩
        have hpos := List.length_pos_of_mem hmem
        rw [List.filter_cons_of_pos (by simpa using hx)] at huniq
        simp only [List.length_cons] at huniq
        omega
      simp only [checkDebuggerLines, hx, if_true, decide_eq_true_eq, specTracerField,
        List.mem_cons]
      constructor
      · intro h; exact ⟨x, Or.inl rfl, hx, h.1, h.2⟩
      · rintro ⟨line, hl | hl, hpre, hlen, hval⟩
        · subst hl; exact ⟨hlen, hval⟩
        · rw [hrest line hl] at hpre; cases hpre
    · have hxf : HasPrefix x (ascii "TracerPid:") = false := by simpa using hx
      have huniq2 : (rest.filter (fun l => HasPrefix l (ascii "TracerPid:"))).length ≤ 1 := by
        rw [List.filter_cons_of_neg (by simpa using hxf)] at huniq
        exact huniq
      simp only [checkDebuggerLines, hxf, Bool.false_eq_true, if_false, ih huniq2,
        specTracerField, List.mem_cons]
      constructor
      · rintro ⟨line, hl, h⟩; exact ⟨line, Or.inr hl, h⟩
      · rintro ⟨line, hl | hl, hpre, hlen, hval⟩
        · subst hl; rw [hxf] at hpre; cases hpre
        · exact ⟨line, hl, hpre, hlen, hval⟩

/-- C9, as the code has it. Tracer detection: for every content of the process status file
(any sequence of lines), `checkDebugger` returns true if and only if the first line of the
content that starts with `TracerPid:` has a second white-space separated field and that field
is not the string `0`; it returns false when the status file cannot be opened and when no line
starts with `TracerPid:`. -/
theorem checkDebugger_first_field (env : Env) :
    (checkDebugger env = true ↔
        ∃ lines pre line post, env.procStatus = some lines ∧ lines = pre ++ line :: post ∧
          (∀ l ∈ pre, HasPrefix l (ascii "TracerPid:") = false) ∧
          HasPrefix line (ascii "TracerPid:") = true ∧
          2 ≤ (Fields line).length ∧ (Fields line).getD 1 [] ≠ ascii "0") ∧
      (env.procStatus = none → checkDebugger env = false) ∧
      (∀ lines, env.procStatus = some lines →
        (∀ l ∈ lines, HasPrefix l (ascii "TracerPid:") = false) →
        checkDebugger env = false) := by
  refine ⟨?_, ?_, ?_⟩
  · cases hs : env.procStatus with
    | none => simp [checkDebugger, hs]
    | some lines =>
      simp only [checkDebugger, hs, checkDebuggerLines_iff, Option.some.injEq]
      constructor
      · rintro ⟨pre, line, post, h⟩
        exact ⟨lines, pre, line, post, rfl, h⟩
      · rintro ⟨lines2, pre, line, post, rfl, h⟩
        exact ⟨pre, line, post, h⟩
  · intro hs; simp [checkDebugger, hs]
  · intro lines hs hno
    have hne : ¬ checkDebuggerLines lines = true := by
      rw [checkDebuggerLines_iff]
      rintro ⟨pre, line, post, rfl, _, hline, _⟩
      have := hno line (by simp)
      rw [hline] at this; cases this
    simpa [checkDebugger, hs] using hne

/-- C9, as stated, fails: the content with the lines `TracerPid:\t0` and `TracerPid:\t4242`
has a `TracerPid:` field whose value is present and not zero (the second line), and
`checkDebugger` returns false, because the loop breaks at the first `TracerPid:` line. -/
theorem checkDebugger_counterexample :
    twoFieldsEnv.procStatus = some [ascii "TracerPid:\t0", ascii "TracerPid:\t4242"] ∧
      specTracerField [ascii "TracerPid:\t0", ascii "TracerPid:\t4242"] ∧
      Fields (ascii "TracerPid:\t4242") = [ascii "TracerPid:", ascii "4242"] ∧
      checkDebugger twoFieldsEnv = false := by
  refine ⟨by decide, ⟨ascii "TracerPid:\t4242", by decide, by decide, by decide, by decide⟩,
    by decide, by decide⟩

end Ldaplookup
